import Mathlib

/-!
# rdpgw: the `.rdp` download handler, the gateway policy wiring and `verifyAlg`

A shallow embedding of the Go sources

* `cmd/rdpgw/api/web.go` (`Config`, `NewApi`, `HandleDownload`),
* `cmd/rdpgw/main.go` (the `api.Config` and `protocol.ServerConf` literals),
* `cmd/rdpgw/config/configuration.go` (the configuration records),
* `cmd/rdpgw/security/jwt.go` (`verifyAlg`),

together with the parts of the Go standard library these functions call
(`strings`, `strconv`, `fmt`, `encoding/hex`, `math/rand`).

A Go `string` is an immutable sequence of bytes, so it is a `List Byte` here.
-/

/-- One byte of a Go string. -/
abbrev Byte := Fin 256

/-- A Go `string`: a sequence of bytes (not necessarily valid UTF-8). -/
abbrev GoString := List Byte

/-- The Go string denoted by an ASCII string literal of the source. -/
def lit (s : String) : GoString := s.toList.map (fun c => Fin.ofNat c.toNat)

/-! ## Package `strings` -/

namespace strings

/-- Go: `len(s) >= len(prefix) && s[:len(prefix)] == prefix`. -/
def HasPrefix (s pre : GoString) : Bool :=
  decide (pre.length ≤ s.length) && (s.take pre.length == pre)

/-- Go `strings.Index`: the index of the first instance of `substr` in `s`;
Go's `-1` is `none`. -/
def Index : GoString → GoString → Option Nat
  | [], substr => if HasPrefix [] substr then some 0 else none
  | b :: t, substr =>
    if HasPrefix (b :: t) substr then some 0 else (Index t substr).map (· + 1)

/-- The loop of `strings.Count` for a non-empty `substr`:
`for { i := Index(s, substr); if i == -1 { return n }; n++; s = s[i+len(substr):] }`.
The first argument bounds the number of iterations. -/
def countLoop : Nat → GoString → GoString → Nat
  | 0, _, _ => 0
  | fuel + 1, s, substr =>
    match Index s substr with
    | none => 0
    | some i => 1 + countLoop fuel (s.drop (i + substr.length)) substr

/-- Go `strings.Count` for a non-empty `substr` (the number of non-overlapping
instances).  Every iteration drops at least one byte, so `len(s) + 1`
iterations are never exhausted. -/
def Count (s substr : GoString) : Nat := countLoop (s.length + 1) s substr

/-- The replacement loop of `strings.Replace` for a non-empty `old`, run on the
not yet copied rest `s[start:]`:
`j := start + Index(s[start:], old); b.WriteString(s[start:j]); b.WriteString(new);
 start = j + len(old)`, and after `n` rounds `b.WriteString(s[start:])`. -/
def replaceLoop : Nat → GoString → GoString → GoString → GoString
  | 0, s, _, _ => s
  | n + 1, s, old, new =>
    match Index s old with
    | none => s
    | some j => s.take j ++ new ++ replaceLoop n (s.drop (j + old.length)) old new

/-- Go `strings.Replace(s, old, new, n)` for a non-empty `old` (the program
passes the constant placeholders only):
`if old == new || n == 0 { return s }`,
`if m := Count(s, old); m == 0 { return s } else if n < 0 || m < n { n = m }`,
then the replacement loop. -/
def Replace (s old new : GoString) (n : Int) : GoString :=
  if old = new ∨ n = 0 then s
  else
    let m := Count s old
    if m = 0 then s
    else
      let k : Nat := if n < 0 ∨ (m : Int) < n then m else n.toNat
      replaceLoop k s old new

/-- The loop of `genSplit` for a non-empty `sep`: at most `n` cuts
(`for i < n { m := Index(s, sep); if m < 0 { break }; a[i] = s[:m];
 s = s[m+len(sep):]; i++ }; a[i] = s; return a[:i+1]`). -/
def splitLoop : Nat → GoString → GoString → List GoString
  | 0, s, _ => [s]
  | n + 1, s, sep =>
    match Index s sep with
    | none => [s]
    | some m => s.take m :: splitLoop n (s.drop (m + sep.length)) sep

/-- Go `genSplit(s, sep, 0, n)` for a non-empty `sep`:
`if n == 0 { return nil }`, `if n < 0 { n = Count(s, sep) + 1 }`,
`if n > len(s)+1 { n = len(s) + 1 }`, `a := make([]string, n); n--`, the loop. -/
def genSplit (s sep : GoString) (n : Int) : List GoString :=
  if n = 0 then []
  else
    let n1 : Nat := if n < 0 then Count s sep + 1 else n.toNat
    let n2 : Nat := if n1 > s.length + 1 then s.length + 1 else n1
    splitLoop (n2 - 1) s sep

/-- Go `strings.SplitN(s, sep, n)`. -/
def SplitN (s sep : GoString) (n : Int) : List GoString := genSplit s sep n

/-- Go `strings.Split(s, sep)`, which is `genSplit(s, sep, 0, -1)`. -/
def Split (s sep : GoString) : List GoString := genSplit s sep (-1)

end strings

/-! ## Package `strconv` -/

namespace strconv

/-- The decimal digits of `u`, most significant first (the digit loop of
`formatBits`: `for u >= 10 { a[i] = '0' + u%10; u /= 10 }; a[i] = '0' + u`).
The first argument bounds the number of digits. -/
def formatDigits : Nat → Nat → GoString
  | 0, _ => []
  | fuel + 1, u =>
    if u < 10 then [Fin.ofNat (48 + u)]
    else formatDigits fuel (u / 10) ++ [Fin.ofNat (48 + u % 10)]

/-- Go `strconv.Itoa`: the signed decimal rendering, `-` in front of the digits
of `-i` for a negative `i`. A number `u` has at most `u + 1` digits. -/
def Itoa (i : Int) : GoString :=
  if i < 0 then (45 : Byte) :: formatDigits (i.natAbs + 1) i.natAbs
  else formatDigits (i.natAbs + 1) i.natAbs

end strconv

/-! ## Package `encoding/hex` -/

namespace hex

/-- The digit `hextable[n]` of `"0123456789abcdef"`. -/
def hexDigit (n : Nat) : Byte :=
  if n < 10 then Fin.ofNat (48 + n) else Fin.ofNat (87 + n)

/-- Go `hex.EncodeToString`: two lower-case hexadecimal digits per byte,
`hextable[v>>4]` then `hextable[v&0x0f]`. -/
def EncodeToString : List Byte → GoString
  | [] => []
  | v :: rest => hexDigit (v.val / 16) :: hexDigit (v.val % 16) :: EncodeToString rest

end hex

/-! ## Package `unicode/utf8` -/

namespace utf8

/-- Go: a continuation byte, `0x80 <= b <= 0xBF`. -/
def isCont (b : Byte) : Bool := decide (128 ≤ b.val ∧ b.val ≤ 191)

/-- The size `utf8.DecodeRuneInString` reports for the first rune of `s` when
the encoding is valid, and `none` when it reports `(RuneError, 1)` for an invalid
or truncated encoding (table `first` and `acceptRanges` of the package). -/
def validSize : GoString → Option Nat
  | [] => none
  | b0 :: rest =>
    if b0.val < 128 then some 1
    else if b0.val < 194 then none
    else if b0.val < 224 then
      match rest with
      | b1 :: _ => if isCont b1 then some 2 else none
      | _ => none
    else if b0.val < 240 then
      match rest with
      | b1 :: b2 :: _ =>
        let lo := if b0.val = 224 then 160 else 128
        let hi := if b0.val = 237 then 159 else 191
        if lo ≤ b1.val ∧ b1.val ≤ hi ∧ isCont b2 = true then some 3 else none
      | _ => none
    else if b0.val < 245 then
      match rest with
      | b1 :: b2 :: b3 :: _ =>
        let lo := if b0.val = 240 then 144 else 128
        let hi := if b0.val = 244 then 143 else 191
        if lo ≤ b1.val ∧ b1.val ≤ hi ∧ isCont b2 = true ∧ isCont b3 = true then some 4
        else none
      | _ => none
    else none

end utf8

/-! ## Package `fmt`: `Sprintf` with a format and no operands -/

namespace fmt

/-- The loop of `parsenum`: digits are accumulated until a non-digit or the end
of the segment; `tooLarge(num)` (more than `1e6`) gives `(0, false, end)`.
The result is the number, whether a digit was read, and the bytes consumed. -/
def parsenumLoop (total : Nat) : GoString → Nat → Bool → Nat → Nat × Bool × Nat
  | [], num, isnum, k => (num, isnum, k)
  | c :: rest, num, isnum, k =>
    if 48 ≤ c.val ∧ c.val ≤ 57 then
      if num > 1000000 then (0, false, total)
      else parsenumLoop total rest (num * 10 + (c.val - 48)) true (k + 1)
    else (num, isnum, k)

/-- Go `parsenum(s, start, end)` on the segment `s[start:end]`. -/
def parsenum (seg : GoString) : Nat × Bool × Nat := parsenumLoop seg.length seg 0 false 0

/-- Go `parseArgNumber(format)` for a format starting with `[`: the bytes to
consume and whether a bracketed number parsed (the index itself is never in
range without operands). -/
def parseArgNumber (format : GoString) : Nat × Bool :=
  if format.length < 3 then (1, false)
  else
    match (format.drop 1).indexOf? (93 : Byte) with
    | none => (1, false)
    | some k =>
      -- the closing bracket is at index `k + 1`, the number is `format[1:k+1]`
      let r := parsenum ((format.drop 1).take k)
      if r.2.1 = false ∨ r.2.2 ≠ k then (k + 2, false) else (k + 2, true)

/-- Go `(*pp).argNumber` with `numArgs = 0`: the rest of the format, `found`,
and the new value of `p.goodArgNum`. -/
def argNumber (format : GoString) (good : Bool) : GoString × Bool × Bool :=
  match format with
  | 91 :: _ =>
    let r := parseArgNumber format
    (format.drop r.1, r.2, false)
  | _ => (format, false, good)

/-- The bytes `writeRune(verb)` appends for the verb at the head of `s`, and
the size of the verb: the rune itself, or U+FFFD for an invalid encoding. -/
def verbBytes (s : GoString) : GoString × Nat :=
  match utf8.validSize s with
  | some k => (s.take k, k)
  | none => ([239, 191, 189], 1)

/-- The width of a verb: `*` finds no operand and writes `%!(BADWIDTH)`,
otherwise `parsenum`; a number after an argument index spoils `goodArgNum`.
Gives the bytes written, the rest of the format, `afterIndex` and
`goodArgNum`. -/
def doWidth (s : GoString) (afterIndex good : Bool) : GoString × GoString × Bool × Bool :=
  match s with
  | 42 :: t => (lit "%!(BADWIDTH)", t, false, good)
  | s2 =>
    let r := parsenum s2
    ([], s2.drop r.2.2, afterIndex, if afterIndex && r.2.1 then false else good)

/-- The precision of a verb, after a `.`: an argument index, then `*` (no
operand, `%!(BADPREC)`) or `parsenum`. -/
def doPrecision (s : GoString) (afterIndex good : Bool) : GoString × GoString × Bool × Bool :=
  match s with
  | 46 :: t =>
    let a2 := argNumber t (if afterIndex then false else good)
    match a2.1 with
    | 42 :: t2 => (lit "%!(BADPREC)", t2, false, a2.2.2)
    | s5 => ([], s5.drop (parsenum s5).2.2, a2.2.1, a2.2.2)
  | s3 => ([], s3, afterIndex, good)

/-- The verb itself: `%!(NOVERB)` at the end of the format, `%` for `%%`,
`%!verb(BADINDEX)` after a bad argument index and `%!verb(MISSING)` otherwise
(there is no operand to print). -/
def doVerbRune (s : GoString) (good : Bool) : GoString × GoString :=
  match s with
  | [] => (lit "%!(NOVERB)", [])
  | c :: t =>
    if c = 37 then (lit "%", t)
    else
      let v := verbBytes (c :: t)
      if good = false then (lit "%!" ++ v.1 ++ lit "(BADINDEX)", (c :: t).drop v.2)
      else (lit "%!" ++ v.1 ++ lit "(MISSING)", (c :: t).drop v.2)

/-- One verb of `doPrintf` without operands, on the format after its `%`:
flags, argument index, width, precision, argument index, verb.  Gives the
bytes written and the rest of the format. -/
def doVerb (afterPercent : GoString) : GoString × GoString :=
  let s1 := afterPercent.dropWhile
    (fun c => c = 35 ∨ c = 48 ∨ c = 43 ∨ c = 45 ∨ c = 32)
  let a1 := argNumber s1 true
  let w := doWidth a1.1 a1.2.1 a1.2.2
  let p := doPrecision w.2.1 w.2.2.1 w.2.2.2
  let a3 := if p.2.2.1 then (p.2.1, true, p.2.2.2) else argNumber p.2.1 p.2.2.2
  let v := doVerbRune a3.1 a3.2.2
  (w.1 ++ p.1 ++ v.1, v.2)

/-- The format loop of `doPrintf` without operands: the text before the next
`%` is copied, then one verb is processed.  The first argument bounds the
number of verbs. -/
def doPrintf : Nat → GoString → GoString
  | 0, _ => []
  | fuel + 1, format =>
    let text := format.takeWhile (fun c => c ≠ 37)
    match format.dropWhile (fun c => c ≠ 37) with
    | [] => text
    | _ :: afterPercent =>
      let r := doVerb afterPercent
      text ++ r.1 ++ doPrintf fuel r.2

/-- Go `fmt.Sprintf(format)` called with a format and no operands.  Every verb
consumes its `%`, so `len(format) + 1` rounds are never exhausted. -/
def Sprintf (format : GoString) : GoString := doPrintf (format.length + 1) format

end fmt

/-! ## Package `math/rand` and the clock -/

namespace rand

/-- The global generator of `math/rand` as the handler uses it.  The generator
is deterministic once seeded: `draw seed n` is the raw value that `rand.Intn(n)`
reduces modulo `n` when it is called right after `rand.Seed(seed)`, and
`fill seed n i` is byte `i` of the buffer the following `rand.Read` fills. -/
structure Rand where
  draw : Int → Nat → Nat
  fill : Int → Nat → Nat → Byte

/-- Go `rand.Seed(seed)` followed by `rand.Intn(n)`: a value in `[0, n)`;
`Intn` panics (`none`) when `n <= 0`. -/
def Intn (g : rand.Rand) (seed : Int) (n : Nat) : Option Nat :=
  if n = 0 then none else some (g.draw seed n % n)

/-- Go `seed := make([]byte, 16); rand.Read(seed)` after the calls above. -/
def Read (g : rand.Rand) (seed : Int) (n : Nat) (len : Nat) : List Byte :=
  (List.range len).map (g.fill seed n)

end rand

/-! ## `cmd/rdpgw/api/web.go` -/

/-- Go `api.Config`.  The unexported `store` and `stateStore` are handles of
the session libraries that `NewApi` creates; `HandleDownload` does not read
them. -/
structure Config where
  ClientIPAddress : GoString
  SessionKey : List Byte
  SessionEncryptionKey : List Byte
  Hosts : List GoString
  GatewayAddress : GoString
  UsernameTemplate : GoString
  NetworkAutoDetect : Int
  BandwidthAutoDetect : Int
  ConnectionType : Int
  SplitUserDomain : Bool
  DefaultDomain : GoString

/-- Go `(*Config).NewApi`: `log.Fatal` (an error here) on a session key of
fewer than 32 bytes or on an empty host list, otherwise the configuration is
accepted. -/
def NewApi (c : Config) : Except String Config :=
  if c.SessionKey.length < 32 then .error "Session key too small"
  else if c.Hosts.length < 1 then .error "Not enough hosts to connect to specified"
  else .ok c

/-- What a handler does with its `http.ResponseWriter`: `http.Error(w, msg, code)`
or `http.ServeContent` of `content` under the name `name`, with the headers set
before. -/
inductive Response where
  | Error (msg : GoString) (code : Nat)
  | ServeContent (header : List (GoString × GoString)) (name : GoString) (content : GoString)
  deriving DecidableEq, Repr

/-- Go `http.StatusInternalServerError`. -/
def StatusInternalServerError : Nat := 500

/-- The placeholder of a host template, `"{{ preferred_username }}"`. -/
def hostPlaceholder : GoString := lit "{{ preferred_username }}"

/-- The placeholder of the user name template, `"{{ username }}"`. -/
def userPlaceholder : GoString := lit "{{ username }}"

/-- Lines 89-90 of `HandleDownload`:
`rand.Seed(time.Now().Unix()); host := c.Hosts[rand.Intn(len(c.Hosts))]`.
`none` is a run-time panic (`Intn` of 0, or an index out of range). -/
def selectHost (c : Config) (g : rand.Rand) (now : Int) : Option GoString :=
  match rand.Intn g now c.Hosts.length with
  | none => none
  | some i => c.Hosts[i]?

/-- Line 91: `host = strings.Replace(host, "{{ preferred_username }}", userName, 1)`. -/
def interpolateHost (host userName : GoString) : GoString :=
  strings.Replace host hostPlaceholder userName 1

/-- Lines 93-102: the user and the domain.
`user = userName; domain = c.DefaultDomain;
 if c.SplitUserDomain { creds := strings.SplitN(userName, "@", 2); user = creds[0];
 if len(creds) > 1 { domain = creds[1] } }`.
`none` is the panic of `creds[0]` on an empty slice. -/
def splitUserDomain (c : Config) (userName : GoString) : Option (GoString × GoString) :=
  if c.SplitUserDomain then
    let creds := strings.SplitN userName (lit "@") 2
    match creds[0]? with
    | none => none
    | some user =>
      if creds.length > 1 then
        match creds[1]? with
        | none => none
        | some domain => some (user, domain)
      else some (user, c.DefaultDomain)
  else some (userName, c.DefaultDomain)

/-- Lines 104-113: the rendered user name, or `none` when the handler answers
`invalid server configuration`.
`render := user; if c.UsernameTemplate != "" { render = fmt.Sprintf(c.UsernameTemplate);
 render = strings.Replace(render, "{{ username }}", user, 1);
 if c.UsernameTemplate == render { http.Error(...); return } }`. -/
def renderUser (c : Config) (user : GoString) : Option GoString :=
  if c.UsernameTemplate ≠ [] then
    let render := fmt.Sprintf c.UsernameTemplate
    let render := strings.Replace render userPlaceholder user 1
    if c.UsernameTemplate = render then none else some render
  else some user

/-- Lines 122-133: the text of the `.rdp` file. -/
def rdpData (c : Config) (host render domain : GoString) : GoString :=
  lit "full address:s:" ++ host ++ lit "\r\n" ++
  lit "gatewayhostname:s:" ++ c.GatewayAddress ++ lit "\r\n" ++
  lit "gatewaycredentialssource:i:5\r\n" ++
  lit "gatewayusagemethod:i:1\r\n" ++
  lit "gatewayprofileusagemethod:i:1\r\n" ++
  lit "networkautodetect:i:" ++ strconv.Itoa c.NetworkAutoDetect ++ lit "\r\n" ++
  lit "bandwidthautodetect:i:" ++ strconv.Itoa c.BandwidthAutoDetect ++ lit "\r\n" ++
  lit "connection type:i:" ++ strconv.Itoa c.ConnectionType ++ lit "\r\n" ++
  lit "username:s:" ++ render ++ lit "\r\n" ++
  lit "domain:s:" ++ domain ++ lit "\r\n" ++
  lit "bitmapcachesize:i:32000\r\n" ++
  lit "smart sizing:i:1\r\n"

/-- Lines 116-121: the download name `hex(seed) + ".rdp"` of 16 random bytes. -/
def fileName (c : Config) (g : rand.Rand) (now : Int) : GoString :=
  hex.EncodeToString (rand.Read g now c.Hosts.length 16) ++ lit ".rdp"

/-- Go `(*Config).HandleDownload`.  `userName` is the value of
`ctx.Value("preferred_username").(string)` (`none` when the assertion fails),
`now` is `time.Now().Unix()`.  The outer `none` is a run-time panic. -/
def HandleDownload (c : Config) (g : rand.Rand) (now : Int) (userName : Option GoString) :
    Option Response :=
  match userName with
  | none => some (.Error (lit "cannot find session or user") StatusInternalServerError)
  | some userName =>
    match selectHost c g now with
    | none => none
    | some host =>
      let host := interpolateHost host userName
      match splitUserDomain c userName with
      | none => none
      | some (user, domain) =>
        match renderUser c user with
        | none => some (.Error (lit "invalid server configuration") StatusInternalServerError)
        | some render =>
          let fn := fileName c g now
          some (.ServeContent
            [(lit "Content-Disposition", lit "attachment; filename=" ++ fn),
             (lit "Content-Type", lit "application/x-rdp")]
            fn (rdpData c host render domain))

/-! ## `cmd/rdpgw/config/configuration.go` and `cmd/rdpgw/main.go` -/

namespace config

/-- Go `config.ServerConfig`. -/
structure ServerConfig where
  PermitClientSubnet : GoString
  GatewayAddress : GoString
  Port : Int
  CertFile : GoString
  KeyFile : GoString
  Hosts : List GoString
  RoundRobin : Bool
  SessionKey : GoString
  SessionEncryptionKey : GoString
  SendBuf : Int
  ReceiveBuf : Int

/-- Go `config.RDGCapsConfig`. -/
structure RDGCapsConfig where
  SmartCardAuth : Bool
  IdleTimeout : Int
  RedirectAll : Bool
  DisableRedirect : Bool
  EnableClipboard : Bool
  EnablePrinter : Bool
  EnablePort : Bool
  EnablePnp : Bool
  EnableDrive : Bool

/-- Go `config.ClientConfig`. -/
structure ClientConfig where
  NetworkAutoDetect : Int
  BandwidthAutoDetect : Int
  ConnectionType : Int
  UsernameTemplate : GoString
  SplitUserDomain : Bool
  DefaultDomain : GoString

/-- Go `config.Configuration`. -/
structure Configuration where
  Server : ServerConfig
  Caps : RDGCapsConfig
  Client : ClientConfig

end config

namespace protocol

/-- Modelled from the spec: `protocol.RedirectFlags` is declared in package
`protocol`, which is not among the sources; these are the fields the composite
literal in `main` names (the per-feature redirection enable/disable flags). -/
structure RedirectFlags where
  Clipboard : Bool
  Drive : Bool
  Printer : Bool
  Port : Bool
  Pnp : Bool
  DisableAll : Bool
  EnableAll : Bool
  deriving DecidableEq, Repr

/-- Modelled from the spec: `protocol.ServerConf` is declared in package
`protocol`, which is not among the sources; these are the fields the composite
literal in `main` names (idle timeout, smart card flag, redirection flags,
buffer sizes, permitted client subnet).  A field the literal does not name
would keep its zero value whatever the configuration is. -/
structure ServerConf where
  IdleTimeout : Int
  SmartCardAuth : Bool
  RedirectFlags : RedirectFlags
  SendBuf : Int
  ReceiveBuf : Int
  PermitClientSubnet : GoString
  deriving DecidableEq, Repr

end protocol

/-- Lines 34-45 of `main`: the `api.Config` literal; `[]byte(s)` of a string is
its bytes. -/
def mainApiConfig (conf : config.Configuration) : Config where
  ClientIPAddress := []
  GatewayAddress := conf.Server.GatewayAddress
  SessionKey := conf.Server.SessionKey
  SessionEncryptionKey := conf.Server.SessionEncryptionKey
  Hosts := conf.Server.Hosts
  NetworkAutoDetect := conf.Client.NetworkAutoDetect
  UsernameTemplate := conf.Client.UsernameTemplate
  BandwidthAutoDetect := conf.Client.BandwidthAutoDetect
  ConnectionType := conf.Client.ConnectionType
  SplitUserDomain := conf.Client.SplitUserDomain
  DefaultDomain := conf.Client.DefaultDomain

/-- Lines 80-95 of `main`: the `protocol.ServerConf` literal handed to the
gateway. -/
def mainHandlerConfig (conf : config.Configuration) : protocol.ServerConf where
  IdleTimeout := conf.Caps.IdleTimeout
  SmartCardAuth := conf.Caps.SmartCardAuth
  RedirectFlags :=
    { Clipboard := conf.Caps.EnableClipboard
      Drive := conf.Caps.EnableDrive
      Printer := conf.Caps.EnablePrinter
      Port := conf.Caps.EnablePort
      Pnp := conf.Caps.EnablePnp
      DisableAll := conf.Caps.DisableRedirect
      EnableAll := conf.Caps.RedirectAll }
  SendBuf := conf.Server.SendBuf
  ReceiveBuf := conf.Server.ReceiveBuf
  PermitClientSubnet := conf.Server.PermitClientSubnet

/-! ## `cmd/rdpgw/security/jwt.go` -/

namespace jose

/-- Go `jose.Header` of the go-jose library; `verifyAlg` reads its `Algorithm`
only. -/
structure Header where
  KeyID : GoString
  Algorithm : GoString
  Nonce : GoString
  deriving DecidableEq, Repr

end jose

/-- Go `verifyAlg(headers, alg)`: the result pair `(bool, error)`, the error
being `nil` (`none`) or the message of
`fmt.Errorf("invalid signing method %s", header.Algorithm)`. -/
def verifyAlg : List jose.Header → GoString → Bool × Option GoString
  | [], _ => (true, none)
  | header :: headers, alg =>
    if header.Algorithm ≠ alg then
      (false, some (lit "invalid signing method " ++ header.Algorithm))
    else verifyAlg headers alg

/-! ## Specification vocabulary -/

/-- The first instance of `old` in `s` is the one between `p` and `q`:
`s = p ++ old ++ q`, and no instance of `old` in `s` starts before `p` ends. -/
def FirstAt (s old p q : GoString) : Prop :=
  s = p ++ old ++ q ∧ ∀ p1 q1 : GoString, s = p1 ++ old ++ q1 → p.length ≤ p1.length

/-- Neither a carriage return nor a line feed occurs in `s`. -/
def noCRLF (s : GoString) : Prop := (13 : Byte) ∉ s ∧ (10 : Byte) ∉ s

/-- The hosts that repeated requests select, one request at each of the given
values of `time.Now().Unix()` (lines 89-90 run once per request). -/
def repeatedSelection (c : Config) (g : rand.Rand) (times : List Int) : List (Option GoString) :=
  times.map (selectHost c g)

/-! ## Concrete inputs -/

/-- A generator whose first raw value after `Seed(seed)` is the seed itself. -/
def sampleRand : rand.Rand where
  draw := fun seed _ => seed.toNat
  fill := fun _ _ i => Fin.ofNat (17 * i)

/-- A configuration with one templated host, accepted by `NewApi`. -/
def sampleConfig : Config where
  ClientIPAddress := []
  SessionKey := List.replicate 32 7
  SessionEncryptionKey := List.replicate 32 9
  Hosts := [lit "{{ preferred_username }}.desk.example.com:3389"]
  GatewayAddress := lit "gw.example.com"
  UsernameTemplate := lit "{{ username }}@corp"
  NetworkAutoDetect := 1
  BandwidthAutoDetect := 0
  ConnectionType := -2
  SplitUserDomain := true
  DefaultDomain := lit "CORP"

/-- A host template that holds the placeholder twice. -/
def twiceTemplate : GoString := lit "{{ preferred_username }}.{{ preferred_username }}"

/-- The sample configuration with the twofold host template and no user name
template. -/
def twiceConfig : Config :=
  { sampleConfig with Hosts := [twiceTemplate], UsernameTemplate := [] }

/-- The sample configuration with two plain hosts. -/
def twoHostConfig : Config :=
  { sampleConfig with Hosts := [lit "a.example.com", lit "b.example.com"] }

/-- The sample configuration with a user name template without placeholder. -/
def staticTemplateConfig : Config :=
  { sampleConfig with UsernameTemplate := lit "static" }

/-- A loaded configuration: the sample values in the records of package
`config`. -/
def sampleConfiguration : config.Configuration where
  Server :=
    { PermitClientSubnet := lit "10.0.0.0/8"
      GatewayAddress := lit "gw.example.com"
      Port := 443
      CertFile := lit "server.pem"
      KeyFile := lit "key.pem"
      Hosts := [lit "a.example.com"]
      RoundRobin := false
      SessionKey := List.replicate 32 7
      SessionEncryptionKey := List.replicate 32 9
      SendBuf := 4096
      ReceiveBuf := 8192 }
  Caps :=
    { SmartCardAuth := true
      IdleTimeout := 300
      RedirectAll := false
      DisableRedirect := false
      EnableClipboard := true
      EnablePrinter := false
      EnablePort := false
      EnablePnp := false
      EnableDrive := true }
  Client :=
    { NetworkAutoDetect := 1
      BandwidthAutoDetect := 1
      ConnectionType := 0
      UsernameTemplate := []
      SplitUserDomain := false
      DefaultDomain := [] }

/-- The same configuration with another backend host list. -/
def otherHostsConfiguration : config.Configuration :=
  { sampleConfiguration with
    Server := { sampleConfiguration.Server with Hosts := [lit "b.example.com", lit "c.example.com"] } }

/-- The text made of the given lines, each one followed by `"\r\n"`. -/
def crlfLines : List GoString → GoString
  | [] => []
  | l :: ls => l ++ lit "\r\n" ++ crlfLines ls

/-- A user name that holds a line break. -/
def lineBreakUserName : GoString := lit "alice\r\nfull address:s:elsewhere"

/-- The number that a string of decimal digits denotes. -/
def decimalValue (s : GoString) : Nat := s.foldl (fun acc b => 10 * acc + (b.val - 48)) 0

/-! ## Facts about the `strings` functions -/

theorem HasPrefix_iff (s pre : GoString) : strings.HasPrefix s pre = true ↔ pre <+: s := by
  unfold strings.HasPrefix
  rw [List.prefix_iff_eq_take]
  simp only [Bool.and_eq_true, decide_eq_true_eq, beq_iff_eq]
  constructor
  · rintro ⟨_, h⟩
    exact h.symm
  · intro h
    refine ⟨?_, h.symm⟩
    have hl := congrArg List.length h
    simp only [List.length_take] at hl
    omega

theorem Index_none (s sub : GoString) :
    strings.Index s sub = none ↔ ∀ j, ¬ sub <+: s.drop j := by
  induction s with
  | nil =>
    simp only [strings.Index, List.drop_nil]
    by_cases h : strings.HasPrefix [] sub = true
    · simp only [h, if_true]
      constructor
      · intro h0; cases h0
      · intro h0; exact absurd ((HasPrefix_iff _ _).1 h) (h0 0)
    · simp only [h]
      constructor
      · intro _ j hj; exact h ((HasPrefix_iff _ _).2 hj)
      · intro _; rfl
  | cons b t ih =>
    simp only [strings.Index]
    by_cases h : strings.HasPrefix (b :: t) sub = true
    · simp only [h, if_true]
      constructor
      · intro h0; cases h0
      · intro h0; exact absurd ((HasPrefix_iff _ _).1 h) (h0 0)
    · rw [if_neg h, Option.map_eq_none', ih]
      constructor
      · intro h0 j
        cases j with
        | zero => intro hj; exact h ((HasPrefix_iff _ _).2 hj)
        | succ j => simpa using h0 j
      · intro h0 j
        simpa using h0 (j + 1)

theorem Index_some (s sub : GoString) (i : Nat) (h : strings.Index s sub = some i) :
    sub <+: s.drop i ∧ i ≤ s.length ∧ ∀ j, j < i → ¬ sub <+: s.drop j := by
  induction s generalizing i with
  | nil =>
    simp only [strings.Index] at h
    by_cases hp : strings.HasPrefix [] sub = true
    · simp only [hp, if_true, Option.some.injEq] at h
      subst h
      exact ⟨(HasPrefix_iff _ _).1 hp, Nat.le_refl _, fun j hj => absurd hj (Nat.not_lt_zero j)⟩
    · simp [hp] at h
  | cons b t ih =>
    simp only [strings.Index] at h
    by_cases hp : strings.HasPrefix (b :: t) sub = true
    · simp only [hp, if_true, Option.some.injEq] at h
      subst h
      exact ⟨(HasPrefix_iff _ _).1 hp, Nat.zero_le _, fun j hj => absurd hj (Nat.not_lt_zero j)⟩
    · rw [if_neg hp] at h
      cases hi : strings.Index t sub with
      | none => simp [hi] at h
      | some k =>
        simp only [hi, Option.map_some', Option.some.injEq] at h
        subst h
        obtain ⟨h1, h2, h3⟩ := ih k hi
        refine ⟨by simpa using h1, by simpa using h2, ?_⟩
        intro j hj
        cases j with
        | zero => intro hj0; exact hp ((HasPrefix_iff _ _).2 hj0)
        | succ j => simpa using h3 j (by omega)

theorem contains_iff_drop (s sub : GoString) : sub <:+: s ↔ ∃ j, sub <+: s.drop j := by
  constructor
  · rintro ⟨p, q, h⟩
    refine ⟨p.length, q, ?_⟩
    rw [← h, List.append_assoc, List.drop_left]
  · rintro ⟨j, q, h⟩
    refine ⟨s.take j, q, ?_⟩
    rw [List.append_assoc, h, List.take_append_drop]

theorem Index_none_iff_absent (s sub : GoString) :
    strings.Index s sub = none ↔ ¬ sub <:+: s := by
  rw [Index_none, contains_iff_drop]
  simp

theorem Index_split (s old : GoString) (i : Nat) (h : strings.Index s old = some i) :
    FirstAt s old (s.take i) (s.drop (i + old.length)) := by
  obtain ⟨⟨q, hq⟩, hle, hmin⟩ := Index_some s old i h
  have hq2 : q = s.drop (i + old.length) := by
    have := congrArg (List.drop old.length) hq
    rw [List.drop_left, List.drop_drop] at this
    rw [this, Nat.add_comm]
  constructor
  · rw [← hq2, List.append_assoc, hq, List.take_append_drop]
  · intro p1 q1 h1
    rw [List.length_take, Nat.min_eq_left hle]
    by_contra hlt
    apply hmin p1.length (by omega)
    refine ⟨q1, ?_⟩
    rw [h1, List.append_assoc, List.drop_left]

theorem Index_of_FirstAt (s old p q : GoString) (h : FirstAt s old p q) :
    strings.Index s old = some p.length := by
  cases hi : strings.Index s old with
  | none =>
    exact absurd ⟨p, q, h.1.symm⟩ ((Index_none_iff_absent s old).1 hi)
  | some i =>
    have hs := Index_split s old i hi
    obtain ⟨_, hle, _⟩ := Index_some s old i hi
    have h1 := h.2 _ _ hs.1
    have h2 := hs.2 _ _ h.1
    rw [List.length_take, Nat.min_eq_left hle] at h1 h2
    rw [Nat.le_antisymm h2 h1]

theorem FirstAt_unique (s old p q p1 q1 : GoString) (h : FirstAt s old p q)
    (h1 : FirstAt s old p1 q1) : p = p1 ∧ q = q1 := by
  have hl : p.length = p1.length := Nat.le_antisymm (h.2 _ _ h1.1) (h1.2 _ _ h.1)
  have e := h.1.symm.trans h1.1
  rw [List.append_assoc, List.append_assoc] at e
  have hp := List.append_inj_left e hl
  subst hp
  exact ⟨rfl, by simpa using e⟩

theorem Count_eq_zero (s old : GoString) :
    strings.Count s old = 0 ↔ strings.Index s old = none := by
  unfold strings.Count
  cases hi : strings.Index s old with
  | none => simp [strings.countLoop, hi]
  | some i => simp [strings.countLoop, hi]

theorem Replace_one (s old new : GoString) :
    strings.Replace s old new 1 =
      match strings.Index s old with
      | none => s
      | some j => s.take j ++ new ++ s.drop (j + old.length) := by
  unfold strings.Replace
  by_cases he : old = new
  · subst he
    simp only [true_or, if_true]
    cases hi : strings.Index s old with
    | none => rfl
    | some j => exact (Index_split s old j hi).1
  · cases hi : strings.Index s old with
    | none =>
      have hc := (Count_eq_zero s old).2 hi
      simp [he, hc]
    | some j =>
      have hc : strings.Count s old ≠ 0 := by
        rw [Ne, Count_eq_zero, hi]; simp
      have hk : (if (1 : Int) < 0 ∨ ((strings.Count s old : Nat) : Int) < 1
          then strings.Count s old else (1 : Int).toNat) = 1 := by
        split
        · rename_i h
          rcases h with h | h
          · omega
          · omega
        · rfl
      simp only [he, false_or, one_ne_zero, if_false, hc, hk]
      simp [strings.replaceLoop, hi]

/-- `Replace(s, old, new, 1)` leaves a string without `old` unchanged. -/
theorem Replace_absent (s old new : GoString) (h : ¬ old <:+: s) :
    strings.Replace s old new 1 = s := by
  rw [Replace_one, (Index_none_iff_absent s old).2 h]

/-- `Replace(s, old, new, 1)` replaces the first instance of `old`. -/
theorem Replace_first (s old new p q : GoString) (h : FirstAt s old p q) :
    strings.Replace s old new 1 = p ++ new ++ q := by
  rw [Replace_one, Index_of_FirstAt s old p q h]
  have hs := Index_split s old p.length (Index_of_FirstAt s old p q h)
  obtain ⟨hp, hq⟩ := FirstAt_unique s old _ _ _ _ hs h
  simp only [hp, hq]

theorem FirstAt_of_contains (s old : GoString) (h : old <:+: s) :
    ∃ p q, FirstAt s old p q := by
  cases hi : strings.Index s old with
  | none => exact absurd h ((Index_none_iff_absent s old).1 hi)
  | some i => exact ⟨_, _, Index_split s old i hi⟩

/-! ## Facts about the parts of `HandleDownload` -/

theorem Intn_lt (g : rand.Rand) (seed : Int) (n : Nat) (hn : 0 < n) :
    ∃ i, rand.Intn g seed n = some i ∧ i < n := by
  refine ⟨g.draw seed n % n, ?_, Nat.mod_lt _ hn⟩
  unfold rand.Intn
  rw [if_neg (by omega)]

theorem selectHost_mem (c : Config) (g : rand.Rand) (now : Int) (hh : c.Hosts ≠ []) :
    ∃ host, selectHost c g now = some host ∧ host ∈ c.Hosts := by
  have hn : 0 < c.Hosts.length := List.length_pos.2 hh
  obtain ⟨i, hi, hlt⟩ := Intn_lt g now c.Hosts.length hn
  refine ⟨c.Hosts[i], ?_, List.getElem_mem hlt⟩
  unfold selectHost
  rw [hi]
  exact List.getElem?_eq_getElem hlt

theorem SplitN_two (s sep : GoString) :
    strings.SplitN s sep 2 =
      match s, strings.Index s sep with
      | [], _ => [[]]
      | _ :: _, none => [s]
      | _ :: _, some m => [s.take m, s.drop (m + sep.length)] := by
  unfold strings.SplitN strings.genSplit
  cases s with
  | nil => simp [strings.splitLoop]
  | cons b t =>
    cases hi : strings.Index (b :: t) sep with
    | none => simp [strings.splitLoop, hi]
    | some m => simp [strings.splitLoop, hi]

theorem Index_at_nil : strings.Index [] (lit "@") = none := by decide

theorem splitUserDomain_eq (c : Config) (n : GoString) :
    splitUserDomain c n =
      if c.SplitUserDomain = true then
        match strings.Index n (lit "@") with
        | none => some (n, c.DefaultDomain)
        | some m => some (n.take m, n.drop (m + 1))
      else some (n, c.DefaultDomain) := by
  unfold splitUserDomain
  by_cases hs : c.SplitUserDomain = true
  · rw [if_pos hs, if_pos hs, SplitN_two]
    cases n with
    | nil => simp [Index_at_nil]
    | cons b t =>
      cases hi : strings.Index (b :: t) (lit "@") with
      | none => simp
      | some m =>
        have hl : (lit "@").length = 1 := by decide
        simp [hl]
  · rw [if_neg hs, if_neg hs]

theorem splitUserDomain_some (c : Config) (n : GoString) :
    ∃ user domain, splitUserDomain c n = some (user, domain) := by
  rw [splitUserDomain_eq]
  split
  · split
    · exact ⟨_, _, rfl⟩
    · exact ⟨_, _, rfl⟩
  · exact ⟨_, _, rfl⟩

theorem HandleDownload_eq (c : Config) (g : rand.Rand) (now : Int)
    (userName host user domain : GoString)
    (h1 : selectHost c g now = some host)
    (h2 : splitUserDomain c userName = some (user, domain)) :
    HandleDownload c g now (some userName) =
      some (match renderUser c user with
        | none => .Error (lit "invalid server configuration") StatusInternalServerError
        | some render =>
          .ServeContent
            [(lit "Content-Disposition", lit "attachment; filename=" ++ fileName c g now),
             (lit "Content-Type", lit "application/x-rdp")]
            (fileName c g now) (rdpData c (interpolateHost host userName) render domain)) := by
  unfold HandleDownload
  simp only [h1, h2]
  cases renderUser c user <;> rfl

theorem HandleDownload_no_panic (c : Config) (g : rand.Rand) (now : Int)
    (userName : Option GoString) (hh : c.Hosts ≠ []) :
    HandleDownload c g now userName ≠ none := by
  cases userName with
  | none => simp [HandleDownload]
  | some u =>
    obtain ⟨host, h1, _⟩ := selectHost_mem c g now hh
    obtain ⟨user, domain, h2⟩ := splitUserDomain_some c u
    rw [HandleDownload_eq c g now u host user domain h1 h2]
    simp

theorem interpolateHost_spec (host userName : GoString) :
    (¬ hostPlaceholder <:+: host → interpolateHost host userName = host) ∧
    (∀ p q, FirstAt host hostPlaceholder p q →
      interpolateHost host userName = p ++ userName ++ q) :=
  ⟨fun h => Replace_absent _ _ _ h, fun p q h => Replace_first _ _ _ p q h⟩

theorem Sprintf_plain (t : GoString) (h : (37 : Byte) ∉ t) : fmt.Sprintf t = t := by
  unfold fmt.Sprintf fmt.doPrintf
  have hall : ∀ x ∈ t, decide (x ≠ 37) = true := by
    intro x hx
    simp only [decide_eq_true_eq]
    intro hx37
    exact h (hx37 ▸ hx)
  have hd : t.dropWhile (fun c => decide (c ≠ 37)) = [] := List.dropWhile_eq_nil_iff.2 hall
  have htw : t.takeWhile (fun c => decide (c ≠ 37)) = t := List.takeWhile_eq_self_iff.2 hall
  simp only [hd, htw]

theorem renderUser_template (c : Config) (user : GoString)
    (ht : c.UsernameTemplate ≠ []) (hp : (37 : Byte) ∉ c.UsernameTemplate) :
    (renderUser c user = none ↔
      (¬ userPlaceholder <:+: c.UsernameTemplate ∨ user = userPlaceholder)) ∧
    (∀ p q, FirstAt c.UsernameTemplate userPlaceholder p q → user ≠ userPlaceholder →
      renderUser c user = some (p ++ user ++ q)) := by
  have hr : renderUser c user =
      if c.UsernameTemplate = strings.Replace c.UsernameTemplate userPlaceholder user 1
      then none else some (strings.Replace c.UsernameTemplate userPlaceholder user 1) := by
    unfold renderUser
    rw [if_pos ht, Sprintf_plain _ hp]
  have hfirst : ∀ p q, FirstAt c.UsernameTemplate userPlaceholder p q →
      (c.UsernameTemplate = p ++ user ++ q ↔ user = userPlaceholder) := by
    intro p q hf
    constructor
    · intro he
      have e := hf.1.symm.trans he
      simp only [List.append_assoc, List.append_cancel_left_eq, List.append_cancel_right_eq] at e
      exact e.symm
    · intro he
      rw [he]
      exact hf.1
  constructor
  · rw [hr]
    by_cases hin : userPlaceholder <:+: c.UsernameTemplate
    · obtain ⟨p, q, hf⟩ := FirstAt_of_contains _ _ hin
      rw [Replace_first _ _ _ p q hf]
      constructor
      · intro h
        split at h
        · rename_i he
          exact Or.inr ((hfirst p q hf).1 he)
        · cases h
      · intro h
        rcases h with h | h
        · exact absurd hin h
        · rw [if_pos ((hfirst p q hf).2 h)]
    · rw [Replace_absent _ _ _ hin]
      simp [hin]
  · intro p q hf hne
    rw [hr, Replace_first _ _ _ p q hf, if_neg]
    intro he
    exact hne ((hfirst p q hf).1 he)

theorem renderUser_empty (c : Config) (user : GoString) (ht : c.UsernameTemplate = []) :
    renderUser c user = some user := by
  unfold renderUser
  rw [if_neg (by simp [ht])]

theorem HasPrefix_byte (x b : Byte) (t : GoString) :
    strings.HasPrefix (x :: t) [b] = decide (x = b) := by
  simp [strings.HasPrefix, beq_eq_decide]

theorem Index_byte (n : GoString) (b : Byte) :
    strings.Index n [b] =
      if b ∈ n then some (n.takeWhile (fun x => decide (x ≠ b))).length else none := by
  induction n with
  | nil => simp [strings.Index, strings.HasPrefix]
  | cons x t ih =>
    simp only [strings.Index, HasPrefix_byte]
    by_cases hx : x = b
    · subst hx
      simp
    · have hx2 : ¬ b = x := fun h => hx h.symm
      simp only [hx, decide_False, Bool.false_eq_true, if_false, ih, List.mem_cons, hx2,
        false_or, ne_eq, not_false_eq_true, decide_True, List.takeWhile_cons_of_pos,
        List.length_cons]
      split <;> simp

theorem splitUserDomain_user (c : Config) (n user domain : GoString)
    (hs : splitUserDomain c n = some (user, domain)) :
    user = if c.SplitUserDomain = true then n.takeWhile (fun x => decide (x ≠ 64)) else n := by
  rw [splitUserDomain_eq] at hs
  by_cases hsplit : c.SplitUserDomain = true
  · rw [if_pos hsplit] at hs
    rw [if_pos hsplit]
    have hl : lit "@" = [(64 : Byte)] := by decide
    rw [hl, Index_byte] at hs
    have hpre : n.takeWhile (fun x => decide (x ≠ 64)) <+: n := List.takeWhile_prefix _
    by_cases hm : (64 : Byte) ∈ n
    · rw [if_pos hm] at hs
      simp only [Option.some.injEq, Prod.mk.injEq] at hs
      rw [← hs.1]
      exact (List.prefix_iff_eq_take.1 hpre).symm
    · rw [if_neg hm] at hs
      simp only [Option.some.injEq, Prod.mk.injEq] at hs
      rw [← hs.1]
      symm
      apply List.takeWhile_eq_self_iff.2
      intro x hx
      simp only [decide_eq_true_eq]
      intro h64
      exact hm (h64 ▸ hx)
  · rw [if_neg hsplit] at hs
    rw [if_neg hsplit]
    simp only [Option.some.injEq, Prod.mk.injEq] at hs
    exact hs.1.symm

/-! ## Facts about lines ending in `"\r\n"` -/

theorem Index_crlf (l rest : GoString) (h : (13 : Byte) ∉ l) :
    strings.Index (l ++ lit "\r\n" ++ rest) (lit "\r\n") = some l.length := by
  have hl : lit "\r\n" = [(13 : Byte), 10] := by decide
  rw [hl]
  induction l with
  | nil => simp [strings.Index, strings.HasPrefix]
  | cons b t ih =>
    have hb : b ≠ 13 := fun hb => h (hb ▸ List.mem_cons_self _ _)
    have ht : (13 : Byte) ∉ t := fun hm => h (List.mem_cons_of_mem _ hm)
    have hp : strings.HasPrefix (b :: t ++ [13, 10] ++ rest) [13, 10] = false := by
      cases t with
      | nil => simp [strings.HasPrefix, hb]
      | cons x t2 => simp [strings.HasPrefix, hb]
    simp only [List.cons_append] at hp ⊢
    simp only [strings.Index, hp, Bool.false_eq_true, if_false]
    rw [ih ht]
    rfl

theorem drop_crlf (l rest : GoString) :
    (l ++ lit "\r\n" ++ rest).drop (l.length + (lit "\r\n").length) = rest := by
  have h : l ++ lit "\r\n" ++ rest = (l ++ lit "\r\n") ++ rest := rfl
  rw [h, ← List.length_append, List.drop_left]

theorem countLoop_lines (ls : List GoString) (h : ∀ l ∈ ls, (13 : Byte) ∉ l) (fuel : Nat)
    (hf : ls.length < fuel) :
    strings.countLoop fuel (crlfLines ls) (lit "\r\n") = ls.length := by
  induction ls generalizing fuel with
  | nil =>
    cases fuel with
    | zero => rfl
    | succ f => rfl
  | cons l ls ih =>
    cases fuel with
    | zero => simp at hf
    | succ f =>
      simp only [crlfLines, strings.countLoop,
        Index_crlf l (crlfLines ls) (h l (List.mem_cons_self _ _)), drop_crlf]
      rw [ih (fun x hx => h x (List.mem_cons_of_mem _ hx)) f (by simpa using hf)]
      simp [Nat.add_comm]

theorem splitLoop_lines (ls : List GoString) (h : ∀ l ∈ ls, (13 : Byte) ∉ l) (k : Nat)
    (hk : ls.length ≤ k) :
    strings.splitLoop k (crlfLines ls) (lit "\r\n") = ls ++ [[]] := by
  induction ls generalizing k with
  | nil =>
    cases k with
    | zero => rfl
    | succ f => rfl
  | cons l ls ih =>
    cases k with
    | zero => simp at hk
    | succ f =>
      simp only [crlfLines, strings.splitLoop,
        Index_crlf l (crlfLines ls) (h l (List.mem_cons_self _ _)), drop_crlf]
      rw [ih (fun x hx => h x (List.mem_cons_of_mem _ hx)) f (by simpa using hk)]
      simp

theorem length_crlfLines (ls : List GoString) : ls.length ≤ (crlfLines ls).length := by
  induction ls with
  | nil => simp [crlfLines]
  | cons l ls ih =>
    have h2 : (lit "\r\n").length = 2 := by decide
    simp only [crlfLines, List.length_append, List.length_cons, h2]
    omega

/-- Splitting a text of lines without carriage return at `"\r\n"` gives the
lines back, and the empty rest after the last line break. -/
theorem Split_crlfLines (ls : List GoString) (h : ∀ l ∈ ls, (13 : Byte) ∉ l) :
    strings.Split (crlfLines ls) (lit "\r\n") = ls ++ [[]] := by
  unfold strings.Split strings.genSplit
  have hc : strings.Count (crlfLines ls) (lit "\r\n") = ls.length :=
    countLoop_lines ls h _ (Nat.lt_succ_of_le (length_crlfLines ls))
  have hlen := length_crlfLines ls
  have hn : ¬ ((-1 : Int) = 0) := by decide
  have hneg : (-1 : Int) < 0 := by decide
  rw [if_neg hn]
  simp only [hneg, if_true, hc]
  rw [if_neg (by omega)]
  exact splitLoop_lines ls h _ (by omega)

theorem formatDigits_range (fuel u : Nat) :
    ∀ b ∈ strconv.formatDigits fuel u, 48 ≤ b.val ∧ b.val ≤ 57 := by
  induction fuel generalizing u with
  | zero => simp [strconv.formatDigits]
  | succ f ih =>
    intro b hb
    unfold strconv.formatDigits at hb
    split at hb
    · rename_i hu
      simp only [List.mem_singleton] at hb
      subst hb
      simp only [Fin.ofNat, Nat.mod_eq_of_lt (show 48 + u < 256 by omega)]
      omega
    · rcases List.mem_append.1 hb with hb | hb
      · exact ih _ b hb
      · simp only [List.mem_singleton] at hb
        subst hb
        have := Nat.mod_lt u (show 10 > 0 by decide)
        simp only [Fin.ofNat, Nat.mod_eq_of_lt (show 48 + u % 10 < 256 by omega)]
        omega

theorem Itoa_no_CR (i : Int) : (13 : Byte) ∉ strconv.Itoa i := by
  intro h
  unfold strconv.Itoa at h
  split at h
  · rcases List.mem_cons.1 h with h | h
    · exact absurd h (by decide)
    · exact absurd (formatDigits_range _ _ _ h).1 (by decide)
  · exact absurd (formatDigits_range _ _ _ h).1 (by decide)

theorem rdpData_lines (c : Config) (host render domain : GoString) :
    rdpData c host render domain = crlfLines
      [lit "full address:s:" ++ host,
       lit "gatewayhostname:s:" ++ c.GatewayAddress,
       lit "gatewaycredentialssource:i:5",
       lit "gatewayusagemethod:i:1",
       lit "gatewayprofileusagemethod:i:1",
       lit "networkautodetect:i:" ++ strconv.Itoa c.NetworkAutoDetect,
       lit "bandwidthautodetect:i:" ++ strconv.Itoa c.BandwidthAutoDetect,
       lit "connection type:i:" ++ strconv.Itoa c.ConnectionType,
       lit "username:s:" ++ render,
       lit "domain:s:" ++ domain,
       lit "bitmapcachesize:i:32000",
       lit "smart sizing:i:1"] := by
  have h1 : lit "gatewaycredentialssource:i:5\r\n" =
      lit "gatewaycredentialssource:i:5" ++ lit "\r\n" := by decide
  have h2 : lit "gatewayusagemethod:i:1\r\n" = lit "gatewayusagemethod:i:1" ++ lit "\r\n" := by
    decide
  have h3 : lit "gatewayprofileusagemethod:i:1\r\n" =
      lit "gatewayprofileusagemethod:i:1" ++ lit "\r\n" := by decide
  have h4 : lit "bitmapcachesize:i:32000\r\n" = lit "bitmapcachesize:i:32000" ++ lit "\r\n" := by
    decide
  have h5 : lit "smart sizing:i:1\r\n" = lit "smart sizing:i:1" ++ lit "\r\n" := by decide
  unfold rdpData
  rw [h1, h2, h3, h4, h5]
  simp only [crlfLines, List.append_assoc, List.append_nil]

theorem formatDigits_value (fuel u : Nat) (h : u < fuel) :
    decimalValue (strconv.formatDigits fuel u) = u := by
  induction fuel generalizing u with
  | zero => omega
  | succ f ih =>
    unfold strconv.formatDigits
    split
    · rename_i hu
      simp only [decimalValue, List.foldl_cons, List.foldl_nil, Fin.ofNat,
        Nat.mod_eq_of_lt (show 48 + u < 256 by omega)]
      omega
    · rename_i hu
      have hd := ih (u / 10) (by omega)
      have hm := Nat.mod_lt u (show 10 > 0 by decide)
      unfold decimalValue at hd ⊢
      simp only [List.foldl_append, List.foldl_cons, List.foldl_nil, hd, Fin.ofNat,
        Nat.mod_eq_of_lt (show 48 + u % 10 < 256 by omega)]
      omega

/-- `strconv.Itoa` is the signed decimal rendering: the digits of `|i|`, after
a `-` when `i` is negative. -/
theorem Itoa_value (i : Int) :
    ∃ digits, decimalValue digits = i.natAbs ∧
      (∀ b ∈ digits, 48 ≤ b.val ∧ b.val ≤ 57) ∧
      strconv.Itoa i = if i < 0 then (45 : Byte) :: digits else digits := by
  refine ⟨strconv.formatDigits (i.natAbs + 1) i.natAbs,
    formatDigits_value _ _ (Nat.lt_succ_self _), formatDigits_range _ _, ?_⟩
  unfold strconv.Itoa
  split <;> rfl

/-! ## The iteration bounds are never exhausted -/

theorem countLoop_stable (sub : GoString) (hsub : sub ≠ []) (f1 f2 : Nat) (s : GoString)
    (h1 : s.length < f1) (h2 : s.length < f2) :
    strings.countLoop f1 s sub = strings.countLoop f2 s sub := by
  induction f1 generalizing f2 s with
  | zero => omega
  | succ f1 ih =>
    cases f2 with
    | zero => omega
    | succ f2 =>
      simp only [strings.countLoop]
      cases hi : strings.Index s sub with
      | none => rfl
      | some i =>
        obtain ⟨⟨q, hq⟩, hle, _⟩ := Index_some s sub i hi
        have hlen := congrArg List.length hq
        simp only [List.length_append, List.length_drop] at hlen
        have hpos : 0 < sub.length := List.length_pos.2 hsub
        have hd : (s.drop (i + sub.length)).length < s.length := by
          rw [List.length_drop]
          omega
        simp only
        rw [ih f2 _ (by omega) (by omega)]

theorem argNumber_length (s : GoString) (good : Bool) :
    (fmt.argNumber s good).1.length ≤ s.length := by
  unfold fmt.argNumber
  split
  · simp only [List.length_drop]
    omega
  · exact Nat.le_refl _

theorem doWidth_length (s : GoString) (a g : Bool) :
    (fmt.doWidth s a g).2.1.length ≤ s.length := by
  unfold fmt.doWidth
  split
  · simp
  · simp only [List.length_drop]
    omega

theorem doPrecision_length (s : GoString) (a g : Bool) :
    (fmt.doPrecision s a g).2.1.length ≤ s.length := by
  unfold fmt.doPrecision
  split
  · rename_i t
    have h := argNumber_length t (if a = true then false else g)
    simp only
    generalize fmt.argNumber t (if a = true then false else g) = a2 at h ⊢
    obtain ⟨r, f, g2⟩ := a2
    simp only at h ⊢
    split
    · simp only [List.length_cons] at h ⊢
      omega
    · simp only [List.length_drop, List.length_cons]
      omega
  · exact Nat.le_refl _

theorem doVerbRune_length (s : GoString) (g : Bool) :
    (fmt.doVerbRune s g).2.length ≤ s.length := by
  unfold fmt.doVerbRune
  split
  · simp
  · split
    · simp
    · split <;> simp only [List.length_drop] <;> omega

theorem doVerb_length (s : GoString) : (fmt.doVerb s).2.length ≤ s.length := by
  have h1 : (s.dropWhile
      (fun c => decide (c = 35 ∨ c = 48 ∨ c = 43 ∨ c = 45 ∨ c = 32))).length ≤ s.length :=
    (List.dropWhile_suffix _).length_le
  unfold fmt.doVerb
  simp only
  generalize s.dropWhile (fun c => decide (c = 35 ∨ c = 48 ∨ c = 43 ∨ c = 45 ∨ c = 32)) = s1
    at h1 ⊢
  have h2 := argNumber_length s1 true
  generalize fmt.argNumber s1 true = a1 at h2 ⊢
  have h3 := doWidth_length a1.1 a1.2.1 a1.2.2
  generalize fmt.doWidth a1.1 a1.2.1 a1.2.2 = w at h3 ⊢
  have h4 := doPrecision_length w.2.1 w.2.2.1 w.2.2.2
  generalize fmt.doPrecision w.2.1 w.2.2.1 w.2.2.2 = p at h4 ⊢
  have h5 : (if p.2.2.1 = true then (p.2.1, true, p.2.2.2)
      else fmt.argNumber p.2.1 p.2.2.2).1.length ≤ p.2.1.length := by
    split
    · exact Nat.le_refl _
    · exact argNumber_length _ _
  generalize (if p.2.2.1 = true then (p.2.1, true, p.2.2.2)
      else fmt.argNumber p.2.1 p.2.2.2) = a3 at h5 ⊢
  have h6 := doVerbRune_length a3.1 a3.2.2
  omega

theorem doPrintf_stable (f1 f2 : Nat) (format : GoString)
    (h1 : format.length < f1) (h2 : format.length < f2) :
    fmt.doPrintf f1 format = fmt.doPrintf f2 format := by
  induction f1 generalizing f2 format with
  | zero => omega
  | succ f1 ih =>
    cases f2 with
    | zero => omega
    | succ f2 =>
      simp only [fmt.doPrintf]
      have hd : (format.dropWhile (fun c => decide (c ≠ 37))).length ≤ format.length :=
        (List.dropWhile_suffix _).length_le
      cases hrest : format.dropWhile (fun c => decide (c ≠ 37)) with
      | nil => rfl
      | cons x afterPercent =>
        rw [hrest] at hd
        simp only [List.length_cons] at hd
        have hv := doVerb_length afterPercent
        simp only
        rw [ih f2 _ (by omega) (by omega)]

theorem rdpData_head (c : Config) (host render domain : GoString) :
    ∃ rest, rdpData c host render domain =
      lit "full address:s:" ++ host ++ lit "\r\n" ++ rest := by
  unfold rdpData
  simp only [List.append_assoc]
  exact ⟨_, rfl⟩

theorem address_written (c : Config) (g : rand.Rand) (now : Int) (host userName : GoString)
    (hsel : selectHost c g now = some host) :
    HandleDownload c g now (some userName) =
        some (.Error (lit "invalid server configuration") StatusInternalServerError) ∨
      ∃ hdr fn rest, HandleDownload c g now (some userName) =
        some (.ServeContent hdr fn
          (lit "full address:s:" ++ interpolateHost host userName ++ lit "\r\n" ++ rest)) := by
  obtain ⟨user, domain, h2⟩ := splitUserDomain_some c userName
  rw [HandleDownload_eq c g now userName host user domain hsel h2]
  cases renderUser c user with
  | none => exact Or.inl rfl
  | some render =>
    obtain ⟨rest, hr⟩ := rdpData_head c (interpolateHost host userName) render domain
    exact Or.inr
      ⟨[(lit "Content-Disposition", lit "attachment; filename=" ++ fileName c g now),
        (lit "Content-Type", lit "application/x-rdp")], fileName c g now, rest, by rw [← hr]⟩

/-! ## The claims -/

/-- C1: with exactly one configured host `h`, whatever the generator and the
time stamp are, the host picked is `h`, and a served file starts with the line
`full address:s:` followed by `h` in which the first
`{{ preferred_username }}` is replaced by the user name (by `h` itself when `h`
holds no placeholder). -/
theorem C1_single_host_selected (c : Config) (g : rand.Rand) (now : Int)
    (h userName : GoString) (hc : c.Hosts = [h]) :
    selectHost c g now = some h ∧
    ∃ address,
      (¬ hostPlaceholder <:+: h → address = h) ∧
      (hostPlaceholder <:+: h → ∃ p q, FirstAt h hostPlaceholder p q) ∧
      (∀ p q, FirstAt h hostPlaceholder p q → address = p ++ userName ++ q) ∧
      (HandleDownload c g now (some userName) =
          some (.Error (lit "invalid server configuration") StatusInternalServerError) ∨
        ∃ hdr fn rest, HandleDownload c g now (some userName) =
          some (.ServeContent hdr fn (lit "full address:s:" ++ address ++ lit "\r\n" ++ rest))) := by
  have hsel : selectHost c g now = some h := by
    obtain ⟨host, h1, hm⟩ := selectHost_mem c g now (by rw [hc]; simp)
    rw [hc, List.mem_singleton] at hm
    rw [h1, hm]
  exact ⟨hsel, interpolateHost h userName, (interpolateHost_spec h userName).1,
    FirstAt_of_contains h hostPlaceholder, (interpolateHost_spec h userName).2,
    address_written c g now h userName hsel⟩

/-- C1 at the sample configuration: its only host is selected at time
1700000000. -/
theorem C1_single_host_selected_witness :
    selectHost sampleConfig sampleRand 1700000000 =
      some (lit "{{ preferred_username }}.desk.example.com:3389") :=
  (C1_single_host_selected sampleConfig sampleRand 1700000000
    (lit "{{ preferred_username }}.desk.example.com:3389") (lit "alice") rfl).1

/-- C2: for a configuration that `NewApi` accepts the host list is not empty,
every index below its length looks up a host of the list, `rand.Intn` returns
such an index, the selection yields a host of the list, and the handler never
panics. -/
theorem C2_selection_in_range (c c1 : Config) (hacc : NewApi c = .ok c1) :
    c1 = c ∧ 1 ≤ c1.Hosts.length ∧
    (∀ i, i < c1.Hosts.length → ∃ host, c1.Hosts[i]? = some host ∧ host ∈ c1.Hosts) ∧
    (∀ g now, ∃ i host, rand.Intn g now c1.Hosts.length = some i ∧ i < c1.Hosts.length ∧
      c1.Hosts[i]? = some host ∧ selectHost c1 g now = some host ∧ host ∈ c1.Hosts) ∧
    (∀ g now userName, HandleDownload c1 g now userName ≠ none) := by
  unfold NewApi at hacc
  split at hacc
  · cases hacc
  · split at hacc
    · cases hacc
    · rename_i hk hh
      cases hacc
      have hlen : 1 ≤ c.Hosts.length := by omega
      have hne : c.Hosts ≠ [] := List.length_pos.1 hlen
      refine ⟨rfl, hlen, ?_, ?_, ?_⟩
      · intro i hi
        exact ⟨c.Hosts[i], List.getElem?_eq_getElem hi, List.getElem_mem hi⟩
      · intro g now
        obtain ⟨i, hi, hlt⟩ := Intn_lt g now c.Hosts.length hlen
        refine ⟨i, c.Hosts[i], hi, hlt, List.getElem?_eq_getElem hlt, ?_, List.getElem_mem hlt⟩
        unfold selectHost
        rw [hi]
        exact List.getElem?_eq_getElem hlt
      · intro g now userName
        exact HandleDownload_no_panic c g now userName hne

/-- C2 at the sample configuration, which `NewApi` accepts. -/
theorem C2_selection_in_range_witness :
    NewApi sampleConfig = .ok sampleConfig ∧ 1 ≤ sampleConfig.Hosts.length :=
  ⟨rfl, (C2_selection_in_range sampleConfig sampleConfig rfl).2.1⟩

set_option maxRecDepth 100000 in
/-- C4 refuted as stated: the host template holds the placeholder twice, the
address written for user `bob` is `bob.{{ preferred_username }}`, which still
contains the placeholder text. -/
theorem C4_counterexample :
    hostPlaceholder <:+: twiceTemplate ∧
    HandleDownload twiceConfig sampleRand 1700000000 (some (lit "bob")) =
      some (.ServeContent
        [(lit "Content-Disposition",
            lit "attachment; filename=" ++ fileName twiceConfig sampleRand 1700000000),
         (lit "Content-Type", lit "application/x-rdp")]
        (fileName twiceConfig sampleRand 1700000000)
        (rdpData twiceConfig (lit "bob.{{ preferred_username }}") (lit "bob") (lit "CORP"))) ∧
    hostPlaceholder <:+: lit "bob.{{ preferred_username }}" := by
  refine ⟨⟨[], lit ".{{ preferred_username }}", by decide⟩, by decide,
    ⟨lit "bob.", [], by decide⟩⟩

/-- C4, amended: the address written after `full address:s:` is the selected
host with the first instance of `{{ preferred_username }}` replaced by the user
name (`p ++ userName ++ q` when the host is `p ++ placeholder ++ q` and no
instance starts earlier; such a decomposition exists whenever the host contains
the placeholder), and the host unchanged when it holds no placeholder. -/
theorem C4_first_placeholder_replaced (c : Config) (g : rand.Rand) (now : Int)
    (host userName : GoString) (hsel : selectHost c g now = some host) :
    ∃ address,
      (¬ hostPlaceholder <:+: host → address = host) ∧
      (hostPlaceholder <:+: host → ∃ p q, FirstAt host hostPlaceholder p q) ∧
      (∀ p q, FirstAt host hostPlaceholder p q → address = p ++ userName ++ q) ∧
      (HandleDownload c g now (some userName) =
          some (.Error (lit "invalid server configuration") StatusInternalServerError) ∨
        ∃ hdr fn rest, HandleDownload c g now (some userName) =
          some (.ServeContent hdr fn (lit "full address:s:" ++ address ++ lit "\r\n" ++ rest))) :=
  ⟨interpolateHost host userName, (interpolateHost_spec host userName).1,
    FirstAt_of_contains host hostPlaceholder, (interpolateHost_spec host userName).2,
    address_written c g now host userName hsel⟩

/-- C4 at the twofold template: the first placeholder is replaced. -/
theorem C4_first_placeholder_replaced_witness :
    selectHost twiceConfig sampleRand 1700000000 = some twiceTemplate ∧
    ∃ address,
      (¬ hostPlaceholder <:+: twiceTemplate → address = twiceTemplate) ∧
      (hostPlaceholder <:+: twiceTemplate → ∃ p q, FirstAt twiceTemplate hostPlaceholder p q) ∧
      (∀ p q, FirstAt twiceTemplate hostPlaceholder p q → address = p ++ lit "bob" ++ q) ∧
      (HandleDownload twiceConfig sampleRand 1700000000 (some (lit "bob")) =
          some (.Error (lit "invalid server configuration") StatusInternalServerError) ∨
        ∃ hdr fn rest, HandleDownload twiceConfig sampleRand 1700000000 (some (lit "bob")) =
          some (.ServeContent hdr fn (lit "full address:s:" ++ address ++ lit "\r\n" ++ rest))) :=
  ⟨rfl, C4_first_placeholder_replaced twiceConfig sampleRand 1700000000 twiceTemplate
    (lit "bob") rfl⟩

/-- C3: repeated selections within one Unix second never visit two different
hosts, whatever the generator is: each request seeds the generator with the
same time stamp and so draws the same index.  The selection is therefore not
a round robin; two hosts `a ≠ b` are not both visited. -/
theorem C3_same_second_single_host (c : Config) (g : rand.Rand) (t : Int) (k : Nat)
    (a b : GoString) (hab : a ≠ b) :
    ¬ (some a ∈ repeatedSelection c g (List.replicate k t) ∧
       some b ∈ repeatedSelection c g (List.replicate k t)) := by
  unfold repeatedSelection
  simp only [List.map_replicate, List.mem_replicate]
  rintro ⟨⟨_, h1⟩, ⟨_, h2⟩⟩
  exact hab (Option.some.inj (h1.trans h2.symm))

/-- C3 at two hosts and two requests in the second 1700000000: both requests
select `a.example.com`, `b.example.com` is not visited. -/
theorem C3_same_second_single_host_witness :
    repeatedSelection twoHostConfig sampleRand [1700000000, 1700000000] =
      [some (lit "a.example.com"), some (lit "a.example.com")] ∧
    ¬ (some (lit "a.example.com") ∈
        repeatedSelection twoHostConfig sampleRand (List.replicate 2 1700000000) ∧
       some (lit "b.example.com") ∈
        repeatedSelection twoHostConfig sampleRand (List.replicate 2 1700000000)) :=
  ⟨by decide, C3_same_second_single_host twoHostConfig sampleRand 1700000000 2
    (lit "a.example.com") (lit "b.example.com") (by decide)⟩

/-- C5 refuted as stated: with the template `static` the substitution leaves
the template unchanged for user `alice`, and the handler answers the error
`invalid server configuration` instead of serving a file. -/
theorem C5_counterexample :
    staticTemplateConfig.UsernameTemplate ≠ [] ∧
    strings.Replace (fmt.Sprintf staticTemplateConfig.UsernameTemplate) userPlaceholder
      (lit "alice") 1 = staticTemplateConfig.UsernameTemplate ∧
    HandleDownload staticTemplateConfig sampleRand 1700000000 (some (lit "alice")) =
      some (.Error (lit "invalid server configuration") StatusInternalServerError) := by
  decide

/-- C5, amended: for a non-empty user name template and a user for which the
substitution in the rendered template yields the template itself, the handler
(with a non-empty host list) answers HTTP 500 `invalid server configuration`
and serves no file. -/
theorem C5_unchanged_template_rejected (c : Config) (g : rand.Rand) (now : Int)
    (userName user domain : GoString) (hh : c.Hosts ≠ []) (ht : c.UsernameTemplate ≠ [])
    (hs : splitUserDomain c userName = some (user, domain))
    (heq : strings.Replace (fmt.Sprintf c.UsernameTemplate) userPlaceholder user 1 =
      c.UsernameTemplate) :
    HandleDownload c g now (some userName) =
      some (.Error (lit "invalid server configuration") StatusInternalServerError) ∧
    ∀ hdr fn body, HandleDownload c g now (some userName) ≠
      some (.ServeContent hdr fn body) := by
  obtain ⟨host, h1, _⟩ := selectHost_mem c g now hh
  have hr : renderUser c user = none := by
    unfold renderUser
    rw [if_pos ht]
    simp only [heq, if_true]
  have he := HandleDownload_eq c g now userName host user domain h1 hs
  rw [hr] at he
  refine ⟨he, ?_⟩
  intro hdr fn body hb
  rw [he] at hb
  cases hb

/-- C5 at the template `static` and user `alice@example.com`. -/
theorem C5_unchanged_template_rejected_witness :
    HandleDownload staticTemplateConfig sampleRand 1700000000 (some (lit "alice@example.com")) =
      some (.Error (lit "invalid server configuration") StatusInternalServerError) :=
  (C5_unchanged_template_rejected staticTemplateConfig sampleRand 1700000000
    (lit "alice@example.com") (lit "alice") (lit "example.com")
    (by decide) (by decide) (by decide) (by decide)).1

/-- C6 refuted as stated: two configurations that differ in the backend host
list give the same `protocol.ServerConf`; the host list is not carried by it. -/
theorem C6_counterexample :
    mainHandlerConfig sampleConfiguration = mainHandlerConfig otherHostsConfiguration ∧
    sampleConfiguration.Server.Hosts ≠ otherHostsConfiguration.Server.Hosts := by
  decide

/-- C6, amended: the `protocol.ServerConf` built in `main` copies the idle
timeout, the smart card flag, the seven redirection flags, both buffer sizes and
the permitted client subnet unchanged from the configuration; the backend host
list is not part of it (it does not depend on the host list) and is handed to
`api.Config.Hosts` instead. -/
theorem C6_server_policy_copied (conf : config.Configuration) :
    (mainHandlerConfig conf).IdleTimeout = conf.Caps.IdleTimeout ∧
    (mainHandlerConfig conf).SmartCardAuth = conf.Caps.SmartCardAuth ∧
    (mainHandlerConfig conf).RedirectFlags.Clipboard = conf.Caps.EnableClipboard ∧
    (mainHandlerConfig conf).RedirectFlags.Drive = conf.Caps.EnableDrive ∧
    (mainHandlerConfig conf).RedirectFlags.Printer = conf.Caps.EnablePrinter ∧
    (mainHandlerConfig conf).RedirectFlags.Port = conf.Caps.EnablePort ∧
    (mainHandlerConfig conf).RedirectFlags.Pnp = conf.Caps.EnablePnp ∧
    (mainHandlerConfig conf).RedirectFlags.DisableAll = conf.Caps.DisableRedirect ∧
    (mainHandlerConfig conf).RedirectFlags.EnableAll = conf.Caps.RedirectAll ∧
    (mainHandlerConfig conf).SendBuf = conf.Server.SendBuf ∧
    (mainHandlerConfig conf).ReceiveBuf = conf.Server.ReceiveBuf ∧
    (mainHandlerConfig conf).PermitClientSubnet = conf.Server.PermitClientSubnet ∧
    (mainApiConfig conf).Hosts = conf.Server.Hosts ∧
    ∀ hosts : List GoString,
      mainHandlerConfig { conf with Server := { conf.Server with Hosts := hosts } } =
        mainHandlerConfig conf :=
  ⟨rfl, rfl, rfl, rfl, rfl, rfl, rfl, rfl, rfl, rfl, rfl, rfl, rfl, fun _ => rfl⟩

/-- C7: for a host list that is not empty and the user string `user` (the user
name, or its part before the first `@` when `SplitUserDomain` is set): with a
non-empty template without `%`, the handler answers `invalid server
configuration` exactly when the template does not contain `{{ username }}` or
`user` is that very string, and otherwise serves the file whose `username:s:`
value is the template with the first `{{ username }}` replaced by `user`; with
an empty template the file is served with the value `user`. -/
theorem C7_template_check (c : Config) (g : rand.Rand) (now : Int)
    (userName user domain : GoString) (hh : c.Hosts ≠ [])
    (hs : splitUserDomain c userName = some (user, domain)) :
    (user = if c.SplitUserDomain = true
      then userName.takeWhile (fun x => decide (x ≠ 64)) else userName) ∧
    (c.UsernameTemplate ≠ [] → (37 : Byte) ∉ c.UsernameTemplate →
      (HandleDownload c g now (some userName) =
          some (.Error (lit "invalid server configuration") StatusInternalServerError) ↔
        (¬ userPlaceholder <:+: c.UsernameTemplate ∨ user = userPlaceholder)) ∧
      (userPlaceholder <:+: c.UsernameTemplate →
        ∃ p q, FirstAt c.UsernameTemplate userPlaceholder p q) ∧
      (∀ p q, FirstAt c.UsernameTemplate userPlaceholder p q → user ≠ userPlaceholder →
        ∃ hdr fn host, HandleDownload c g now (some userName) =
          some (.ServeContent hdr fn (rdpData c host (p ++ user ++ q) domain)))) ∧
    (c.UsernameTemplate = [] →
      ∃ hdr fn host, HandleDownload c g now (some userName) =
        some (.ServeContent hdr fn (rdpData c host user domain))) := by
  obtain ⟨host, h1, _⟩ := selectHost_mem c g now hh
  have he := HandleDownload_eq c g now userName host user domain h1 hs
  refine ⟨splitUserDomain_user c userName user domain hs, ?_, ?_⟩
  · intro ht hp
    obtain ⟨hnone, hsome⟩ := renderUser_template c user ht hp
    refine ⟨?_, FirstAt_of_contains _ _, ?_⟩
    · rw [← hnone, he]
      cases renderUser c user with
      | none => simp
      | some r => simp
    · intro p q hf hne
      rw [he, hsome p q hf hne]
      exact ⟨_, _, _, rfl⟩
  · intro ht
    rw [he, renderUser_empty c user ht]
    exact ⟨_, _, _, rfl⟩

/-- C7 at the sample configuration (template `{{ username }}@corp`) and the
user name `alice@example.com`: the file is served with `alice@corp`. -/
theorem C7_template_check_witness :
    ∃ hdr fn host,
      HandleDownload sampleConfig sampleRand 1700000000 (some (lit "alice@example.com")) =
        some (.ServeContent hdr fn
          (rdpData sampleConfig host ([] ++ lit "alice" ++ lit "@corp") (lit "example.com"))) :=
  (C7_template_check sampleConfig sampleRand 1700000000 (lit "alice@example.com")
    (lit "alice") (lit "example.com") (by decide) (by decide)).2.1
    (by decide) (by decide) |>.2.2 [] (lit "@corp")
    (Index_split (lit "{{ username }}@corp") userPlaceholder 0 (by decide)) (by decide)

/-- C8: splitting the user name never fails (`creds[0]` is in range).  With
`SplitUserDomain` set, a name with an `@` is cut at its first `@`: the user
holds no `@` and `user ++ "@" ++ domain` is the name; a name without `@` is the
user and the domain is `DefaultDomain`.  With `SplitUserDomain` unset the user
is the name and the domain is `DefaultDomain`. -/
theorem C8_split_user_domain (c : Config) (n : GoString) :
    (∃ first, (strings.SplitN n (lit "@") 2)[0]? = some first) ∧
    ∃ user domain, splitUserDomain c n = some (user, domain) ∧
      (c.SplitUserDomain = true →
        ((64 : Byte) ∈ n → (64 : Byte) ∉ user ∧ user ++ lit "@" ++ domain = n) ∧
        ((64 : Byte) ∉ n → user = n ∧ domain = c.DefaultDomain)) ∧
      (c.SplitUserDomain = false → user = n ∧ domain = c.DefaultDomain) := by
  have hl : lit "@" = [(64 : Byte)] := by decide
  constructor
  · rw [SplitN_two]
    cases n with
    | nil => exact ⟨_, rfl⟩
    | cons b t =>
      cases strings.Index (b :: t) (lit "@") with
      | none => exact ⟨_, rfl⟩
      | some m => exact ⟨_, rfl⟩
  · by_cases hsplit : c.SplitUserDomain = true
    · cases hi : strings.Index n (lit "@") with
      | none =>
        have hnot : (64 : Byte) ∉ n := by
          intro hm
          rw [hl, Index_byte, if_pos hm] at hi
          cases hi
        refine ⟨n, c.DefaultDomain, ?_, ?_, ?_⟩
        · rw [splitUserDomain_eq, if_pos hsplit, hi]
        · intro _
          exact ⟨fun hm => absurd hm hnot, fun _ => ⟨rfl, rfl⟩⟩
        · intro hf
          rw [hsplit] at hf
          cases hf
      | some m =>
        have hmem : (64 : Byte) ∈ n := by
          by_contra hm
          rw [hl, Index_byte, if_neg hm] at hi
          cases hi
        have hsd : splitUserDomain c n = some (n.take m, n.drop (m + 1)) := by
          rw [splitUserDomain_eq, if_pos hsplit, hi]
        have hu := splitUserDomain_user c n _ _ hsd
        rw [if_pos hsplit] at hu
        have hfa := Index_split n (lit "@") m hi
        refine ⟨n.take m, n.drop (m + 1), hsd, ?_, ?_⟩
        · intro _
          refine ⟨fun _ => ⟨?_, ?_⟩, fun hm => absurd hmem hm⟩
          · rw [hu]
            intro hin
            have := List.mem_takeWhile_imp hin
            simp at this
          · have h1 := hfa.1
            rw [hl] at h1
            rw [hl]
            exact h1.symm
        · intro hf
          rw [hsplit] at hf
          cases hf
    · refine ⟨n, c.DefaultDomain, ?_, ?_, ?_⟩
      · rw [splitUserDomain_eq, if_neg hsplit]
      · intro h
        exact absurd h hsplit
      · intro _
        exact ⟨rfl, rfl⟩

theorem verifyAlg_cases (hs : List jose.Header) (alg : GoString) :
    ((∀ h ∈ hs, h.Algorithm = alg) ∧ verifyAlg hs alg = (true, none)) ∨
    ∃ pre x post, hs = pre ++ x :: post ∧ (∀ h ∈ pre, h.Algorithm = alg) ∧
      x.Algorithm ≠ alg ∧
      verifyAlg hs alg = (false, some (lit "invalid signing method " ++ x.Algorithm)) := by
  induction hs with
  | nil => exact Or.inl ⟨fun h hm => absurd hm (List.not_mem_nil h), rfl⟩
  | cons a t ih =>
    by_cases ha : a.Algorithm = alg
    · have hv : verifyAlg (a :: t) alg = verifyAlg t alg := by
        simp [verifyAlg, ha]
      rcases ih with ⟨hall, hr⟩ | ⟨pre, x, post, he, hpre, hx, hr⟩
      · left
        refine ⟨?_, hv.trans hr⟩
        intro h hm
        rcases List.mem_cons.1 hm with rfl | hm
        · exact ha
        · exact hall h hm
      · right
        refine ⟨a :: pre, x, post, by rw [he]; rfl, ?_, hx, hv.trans hr⟩
        intro h hm
        rcases List.mem_cons.1 hm with rfl | hm
        · exact ha
        · exact hpre h hm
    · right
      refine ⟨[], a, t, rfl, fun h hm => absurd hm (List.not_mem_nil h), ha, ?_⟩
      simp [verifyAlg, ha]

/-- C10: `verifyAlg` returns `(true, nil)` exactly when every header has the
expected algorithm (so for the empty list); otherwise it returns `false` with
the error `invalid signing method X`, `X` being the algorithm of the first
header that differs. -/
theorem C10_verifyAlg_accepts_exactly (hs : List jose.Header) (alg : GoString) :
    (verifyAlg hs alg = (true, none) ↔ ∀ h ∈ hs, h.Algorithm = alg) ∧
    verifyAlg [] alg = (true, none) ∧
    ((∀ h ∈ hs, h.Algorithm = alg) ∨
      ∃ pre x post, hs = pre ++ x :: post ∧ (∀ h ∈ pre, h.Algorithm = alg) ∧
        x.Algorithm ≠ alg ∧
        verifyAlg hs alg = (false, some (lit "invalid signing method " ++ x.Algorithm))) := by
  refine ⟨?_, rfl, ?_⟩
  · constructor
    · intro hv
      rcases verifyAlg_cases hs alg with ⟨hall, _⟩ | ⟨pre, x, post, _, _, _, hr⟩
      · exact hall
      · rw [hr] at hv
        cases hv
    · intro hall
      rcases verifyAlg_cases hs alg with ⟨_, hr⟩ | ⟨pre, x, post, he, _, hx, _⟩
      · exact hr
      · exact absurd (hall x (by rw [he]; simp)) hx
  · rcases verifyAlg_cases hs alg with ⟨hall, _⟩ | h
    · exact Or.inl hall
    · exact Or.inr h

theorem no_CR_append (a b : GoString) (ha : (13 : Byte) ∉ a) (hb : (13 : Byte) ∉ b) :
    (13 : Byte) ∉ a ++ b := by
  intro h
  rcases List.mem_append.1 h with h | h
  · exact ha h
  · exact hb h

set_option maxRecDepth 100000 in
/-- C9: the body of a served file is `rdpData` of the interpolated host, the
rendered user name and the domain; when none of these nor `GatewayAddress`
holds a CR or LF, splitting the body at `"\r\n"` gives exactly the twelve
lines of the file in their order and then the empty rest.  Without that
condition there can be more: for the sample configuration and a user name
with a line break the split has more than thirteen parts. -/
theorem C9_rdp_body_lines (c : Config) (g : rand.Rand) (now : Int) (userName : GoString)
    (hdr : List (GoString × GoString)) (fn body : GoString)
    (hserved : HandleDownload c g now (some userName) = some (.ServeContent hdr fn body)) :
    (∃ host user domain render,
      selectHost c g now = some host ∧
      splitUserDomain c userName = some (user, domain) ∧
      renderUser c user = some render ∧
      body = rdpData c (interpolateHost host userName) render domain ∧
      (noCRLF (interpolateHost host userName) → noCRLF c.GatewayAddress →
        noCRLF render → noCRLF domain →
        strings.Split body (lit "\r\n") =
          [lit "full address:s:" ++ interpolateHost host userName,
           lit "gatewayhostname:s:" ++ c.GatewayAddress,
           lit "gatewaycredentialssource:i:5",
           lit "gatewayusagemethod:i:1",
           lit "gatewayprofileusagemethod:i:1",
           lit "networkautodetect:i:" ++ strconv.Itoa c.NetworkAutoDetect,
           lit "bandwidthautodetect:i:" ++ strconv.Itoa c.BandwidthAutoDetect,
           lit "connection type:i:" ++ strconv.Itoa c.ConnectionType,
           lit "username:s:" ++ render,
           lit "domain:s:" ++ domain,
           lit "bitmapcachesize:i:32000",
           lit "smart sizing:i:1",
           []])) ∧
    (lit "\r\n" <:+: lineBreakUserName ∧
      ∃ hdr1 fn1 body1,
        HandleDownload sampleConfig sampleRand 1700000000 (some lineBreakUserName) =
          some (.ServeContent hdr1 fn1 body1) ∧
        13 < (strings.Split body1 (lit "\r\n")).length) := by
  constructor
  · cases hsel : selectHost c g now with
    | none =>
      simp [HandleDownload, hsel] at hserved
    | some host =>
      obtain ⟨user, domain, h2⟩ := splitUserDomain_some c userName
      have he := HandleDownload_eq c g now userName host user domain hsel h2
      rw [he] at hserved
      cases hr : renderUser c user with
      | none =>
        rw [hr] at hserved
        cases hserved
      | some render =>
        rw [hr] at hserved
        simp only [Option.some.injEq, Response.ServeContent.injEq] at hserved
        refine ⟨host, user, domain, render, rfl, h2, hr, hserved.2.2.symm, ?_⟩
        intro hhost hgw hrender hdomain
        rw [← hserved.2.2, rdpData_lines, Split_crlfLines]
        · rfl
        · intro l hl
          simp only [List.mem_cons, List.mem_singleton, List.not_mem_nil, or_false] at hl
          rcases hl with rfl | rfl | rfl | rfl | rfl | rfl | rfl | rfl | rfl | rfl | rfl | rfl
          · exact no_CR_append _ _ (by decide) hhost.1
          · exact no_CR_append _ _ (by decide) hgw.1
          · decide
          · decide
          · decide
          · exact no_CR_append _ _ (by decide) (Itoa_no_CR _)
          · exact no_CR_append _ _ (by decide) (Itoa_no_CR _)
          · exact no_CR_append _ _ (by decide) (Itoa_no_CR _)
          · exact no_CR_append _ _ (by decide) hrender.1
          · exact no_CR_append _ _ (by decide) hdomain.1
          · decide
          · decide
  · refine ⟨⟨lit "alice", lit "full address:s:elsewhere", by decide⟩, _, _, _, rfl, ?_⟩
    decide

set_option maxRecDepth 100000 in
/-- C9 at the sample configuration and the user name `alice@example.com`: the
served body splits into the twelve lines and the empty rest. -/
theorem C9_rdp_body_lines_witness :
    strings.Split
      (rdpData sampleConfig (lit "alice@example.com.desk.example.com:3389")
        (lit "alice@corp") (lit "example.com")) (lit "\r\n") =
      [lit "full address:s:alice@example.com.desk.example.com:3389",
       lit "gatewayhostname:s:gw.example.com",
       lit "gatewaycredentialssource:i:5",
       lit "gatewayusagemethod:i:1",
       lit "gatewayprofileusagemethod:i:1",
       lit "networkautodetect:i:1",
       lit "bandwidthautodetect:i:0",
       lit "connection type:i:-2",
       lit "username:s:alice@corp",
       lit "domain:s:example.com",
       lit "bitmapcachesize:i:32000",
       lit "smart sizing:i:1",
       []] := by
  obtain ⟨⟨host, user, domain, render, h1, h2, h3, h4, h5⟩, _⟩ :=
    C9_rdp_body_lines sampleConfig sampleRand 1700000000 (lit "alice@example.com")
      [(lit "Content-Disposition",
          lit "attachment; filename=" ++ fileName sampleConfig sampleRand 1700000000),
       (lit "Content-Type", lit "application/x-rdp")]
      (fileName sampleConfig sampleRand 1700000000)
      (rdpData sampleConfig (lit "alice@example.com.desk.example.com:3389")
        (lit "alice@corp") (lit "example.com"))
      (by decide)
  have e1 : host = lit "{{ preferred_username }}.desk.example.com:3389" :=
    Option.some.inj (h1.symm.trans (by decide))
  have e2 : (user, domain) = (lit "alice", lit "example.com") :=
    Option.some.inj (h2.symm.trans (by decide))
  simp only [Prod.mk.injEq] at e2
  obtain ⟨eu, ed⟩ := e2
  subst e1 eu ed
  have e3 : render = lit "alice@corp" := Option.some.inj (h3.symm.trans (by decide))
  subst e3
  have hsplit := h5 ⟨by decide, by decide⟩ ⟨by decide, by decide⟩ ⟨by decide, by decide⟩
    ⟨by decide, by decide⟩
  rw [hsplit]
  decide
